import Mathlib

/-!
Verification development for the RICH alignment demo (src/demos/Alignment).

The Python sources are shallowly embedded over the reals:

* Python floats are modelled as real numbers.
* `math.sqrt` raises `ValueError: math domain error` on a negative argument;
  it is modelled by the `Option`-valued `mathSqrt`.  Code paths that can hit
  that error are modelled as `Option`-valued functions (`Point.rE`,
  `Point.misalignment`, ...); total companions using Mathlib's junk-total
  `Real.sqrt` (`Point.r`, `Ring.r`) are provided for stating values, and the
  two are proved to agree wherever the Python code does not raise.
* `np.linspace(a, b)` uses numpy's defaults: 50 samples, endpoint included;
  `linspace` below reproduces exactly that grid.  Note that both
  `misalignment` methods and `Ring.boundary` call `np.linspace` WITHOUT
  passing their `n` argument, so they always produce 50 samples.
* `np.random.normal` / `np.random.uniform` draws are modelled by oracle
  streams `mag ang : ℕ → ℝ` handed to each call: `mag i` stands for the i-th
  standard-normal draw (numpy's `scale=level` multiplies it by `level`) and
  `ang i` for the i-th uniform draw in `[0, 1)`.
* numpy 1-D elementwise addition with broadcasting (equal lengths, or one
  side of length 1) is modelled by `npAdd`; the shapes that numpy rejects
  with a broadcast `ValueError` yield `none`.
* The mutable `Noisy_Ring` instance state (`_noise`, `_x_error`, `_y_error`,
  all `None` after `__init__`) is threaded explicitly: methods take the state
  and return the new state together with their result.
-/

namespace RICH

noncomputable section

/-- Python's (and numpy's) `atan2(y, x)`: the angle of the point `(x, y)`,
case-split exactly as the C library function is specified. -/
def atan2 (y x : ℝ) : ℝ :=
  if 0 < x then Real.arctan (y / x)
  else if x < 0 then
    (if 0 ≤ y then Real.arctan (y / x) + Real.pi else Real.arctan (y / x) - Real.pi)
  else
    (if 0 < y then Real.pi / 2 else if y < 0 then -(Real.pi / 2) else 0)

/-- Python's `math.sqrt`, which raises `ValueError` (a math domain error) on
negative input, modelled as `none`. -/
def mathSqrt (x : ℝ) : Option ℝ :=
  if x < 0 then none else some (Real.sqrt x)

/-- numpy's `np.linspace(start, stop, num)` with the default inclusive
endpoint: `num` evenly spaced samples from `start` to `stop`, the i-th being
`start + (stop - start) * i / (num - 1)`.  The source always calls it with
the default `num = 50`. -/
def linspace (start stop : ℝ) (num : ℕ) : List ℝ :=
  (List.range num).map fun i : ℕ => start + (stop - start) * (i : ℝ) / ((num : ℝ) - 1)

/-- Python list comprehension with a fallible body: evaluates `f` on every
element in order, the whole comprehension failing as soon as one element
raises. -/
def mapOpt {α β : Type} (f : α → Option β) : List α → Option (List β)
  | [] => some []
  | a :: l =>
    match f a, mapOpt f l with
    | some b, some bs => some (b :: bs)
    | _, _ => none

/-- numpy 1-D elementwise addition with broadcasting: defined when the two
lengths agree or one of them is 1 (the length-1 array is broadcast);
any other shape pair raises a broadcast `ValueError`, modelled as `none`. -/
def npAdd (a b : List ℝ) : Option (List ℝ) :=
  if a.length = b.length then some (List.zipWith (fun s t => s + t) a b)
  else if b.length = 1 then some (a.map fun s => s + b.headI)
  else if a.length = 1 then some (b.map fun t => a.headI + t)
  else none

/-- Class `Point` of `alignment.py`: a point `(x, y)` inside the unit circle.
The derived fields `_phi` and `_d` are recomputed from `(x, y)` by
`__init__` (and by `move`, which just calls `__init__`), so they are
modelled as derived functions rather than stored fields. -/
structure Point where
  x : ℝ
  y : ℝ

/-- Field `_phi` of `Point.__init__`: `np.arctan2(y, x)`. -/
def Point.phi (p : Point) : ℝ := atan2 p.y p.x

/-- Field `_d` of `Point.__init__`: `sqrt(x ** 2 + y ** 2)`. -/
def Point.d (p : Point) : ℝ := Real.sqrt (p.x ^ 2 + p.y ^ 2)

/-- Method `Point._r` of `alignment.py` (total model, `Real.sqrt`):
`chi = phi + pi - theta`; `b = -2 d cos(chi)`; `c = d*d - 1`;
result `(-b + sqrt(b*b - 4*c)) / 2`. -/
def Point.r (p : Point) (theta : ℝ) : ℝ :=
  let chi := p.phi + Real.pi - theta
  let b := -2 * p.d * Real.cos chi
  let c := p.d * p.d - 1
  (-b + Real.sqrt (b * b - 4 * c)) / 2

/-- Method `Point._r` of `alignment.py` with `math.sqrt`'s domain error made
explicit: `none` exactly when the discriminant `b*b - 4*c` is negative. -/
def Point.rE (p : Point) (theta : ℝ) : Option ℝ :=
  let chi := p.phi + Real.pi - theta
  let b := -2 * p.d * Real.cos chi
  let c := p.d * p.d - 1
  (mathSqrt (b * b - 4 * c)).map fun s => (-b + s) / 2

/-- Method `Point.misalignment` of `alignment.py`.  The source reads
`angles = np.linspace(0, 2 * np.pi)` — the argument `n` is NOT passed to
`np.linspace`, so the grid always has numpy's default 50 samples, endpoint
`2*pi` included.  It returns `([_r(a) for a in angles], angles)`. -/
def Point.misalignment (p : Point) (n : ℕ) : Option (List ℝ × List ℝ) :=
  let angles := linspace 0 (2 * Real.pi) 50
  (mapOpt p.rE angles).map fun ds => (ds, angles)

/-- Class `Ring` of `rich_ring.py`: a unit-radius ring centred at `(x, y)`.
Derived fields `_alpha`, `_d` as for `Point`. -/
structure Ring where
  x : ℝ
  y : ℝ

/-- Field `_alpha` of `Ring.__init__`: `np.arctan2(y, x)`. -/
def Ring.alpha (rg : Ring) : ℝ := atan2 rg.y rg.x

/-- Field `_d` of `Ring.__init__`: `sqrt(x ** 2 + y ** 2)`. -/
def Ring.d (rg : Ring) : ℝ := Real.sqrt (rg.x ^ 2 + rg.y ^ 2)

/-- Method `Ring._r` of `rich_ring.py` (total model): unlike `Point._r` the
cosine argument is `phi - alpha`, not `alpha + pi - phi`:
`b = -2 d cos(phi - alpha)`; `c = d*d - 1`;
result `(-b + sqrt(b*b - 4*c)) / 2`. -/
def Ring.r (rg : Ring) (phi : ℝ) : ℝ :=
  let b := -2 * rg.d * Real.cos (phi - rg.alpha)
  let c := rg.d * rg.d - 1
  (-b + Real.sqrt (b * b - 4 * c)) / 2

/-- Method `Ring._r` with `math.sqrt`'s domain error made explicit. -/
def Ring.rE (rg : Ring) (phi : ℝ) : Option ℝ :=
  let b := -2 * rg.d * Real.cos (phi - rg.alpha)
  let c := rg.d * rg.d - 1
  (mathSqrt (b * b - 4 * c)).map fun s => (-b + s) / 2

/-- Method `Ring.misalignment` of `rich_ring.py`: same `np.linspace(0, 2π)`
call without `n` as `Point.misalignment`. -/
def Ring.misalignment (rg : Ring) (n : ℕ) : Option (List ℝ × List ℝ) :=
  let angles := linspace 0 (2 * Real.pi) 50
  (mapOpt rg.rE angles).map fun ds => (ds, angles)

/-- Method `Ring.boundary` of `rich_ring.py`: again `np.linspace(0, 2π)`
ignores `n`, so it always returns two 50-length coordinate lists
`x + cos(angle)` and `y + sin(angle)`. -/
def Ring.boundary (rg : Ring) (n : ℕ) : List ℝ × List ℝ :=
  let angles := linspace 0 (2 * Real.pi) 50
  (angles.map fun t => rg.x + Real.cos t, angles.map fun t => rg.y + Real.sin t)

/-- Class `Noisy_Ring` of `rich_ring.py`: a `Ring` (fields `x`, `y`) plus the
cached noise state `_noise`, `_x_error`, `_y_error`, all `None` after
`__init__`. -/
structure Noisy_Ring where
  x : ℝ
  y : ℝ
  noise : Option ℝ
  x_error : Option (List ℝ)
  y_error : Option (List ℝ)

/-- Constructor `Noisy_Ring.__init__`: the noise caches start out as the
class attributes `None`. -/
def Noisy_Ring.init (x y : ℝ) : Noisy_Ring :=
  { x := x, y := y, noise := none, x_error := none, y_error := none }

/-- Method `Noisy_Ring._set_error`: stores the level and draws `n` fresh
perturbations `noise_mag * cos(noise_angle)`, `noise_mag * sin(noise_angle)`
with `noise_mag = level * mag i` (numpy normal with `scale=level`) and
`noise_angle = 2 * pi * ang i` (numpy uniform scaled to an angle); the
random draws come from the oracle streams `mag`, `ang`. -/
def Noisy_Ring.set_error (r : Noisy_Ring) (n : ℕ) (level : ℝ) (mag ang : ℕ → ℝ) :
    Noisy_Ring :=
  { r with
    noise := some level
    x_error := some ((List.range n).map fun i => level * mag i * Real.cos (2 * Real.pi * ang i))
    y_error := some ((List.range n).map fun i => level * mag i * Real.sin (2 * Real.pi * ang i)) }

/-- Method `Noisy_Ring._should_find_errors`: recompute if forced, or no cache
yet, or the cached length differs from `n`, or the cached level differs from
`noise_level`.  Python's short-circuit `or` evaluates `len(self._x_error)`
only when `_x_error is not None`; that guard is rendered as the
`r.x_error = some xs →` hypothesis of the length disjunct, which is
pointwise equivalent (when the cache is `None` the second disjunct already
fires). -/
def Noisy_Ring.should_find_errors (r : Noisy_Ring) (force : Bool) (n : ℕ)
    (noise_level : ℝ) : Prop :=
  force = true ∨ r.x_error = none ∨
    (∀ xs, r.x_error = some xs → xs.length ≠ n) ∨
    r.noise ≠ some noise_level

/-- Return expression of `Noisy_Ring.boundary`:
`exact_x + self._x_error, exact_y + self._y_error` with the exact boundary
of the plain `Ring` at `(x, y)` and the cached perturbation arrays; numpy
addition (`npAdd`) of incompatible shapes raises (`none`), and adding a
`None` cache would raise a `TypeError` (`none`). -/
def Noisy_Ring.boundaryOut (x y : ℝ) (n : ℕ) :
    Option (List ℝ) → Option (List ℝ) → Option (List ℝ × List ℝ)
  | some xs, some ys =>
    (npAdd (Ring.boundary ⟨x, y⟩ n).1 xs).bind fun bx =>
      (npAdd (Ring.boundary ⟨x, y⟩ n).2 ys).map fun bys => (bx, bys)
  | _, _ => none

open Classical in
/-- Method `Noisy_Ring.boundary`: refresh the cache if `_should_find_errors`
says so, compute the exact boundary via `Ring.boundary` (which ignores `n`
and yields 50 points), and add the cached perturbation arrays elementwise
(numpy broadcasting rules).  Returns the new instance state together with
the result (`none` = a raised error). -/
def Noisy_Ring.boundary (r : Noisy_Ring) (n : ℕ) (noise : ℝ) (new_errors : Bool)
    (mag ang : ℕ → ℝ) : Noisy_Ring × Option (List ℝ × List ℝ) :=
  let r' := if r.should_find_errors new_errors n noise then r.set_error n noise mag ang else r
  (r', Noisy_Ring.boundaryOut r.x r.y n r'.x_error r'.y_error)

open Classical in
/-- Method `Noisy_Ring.misalignment`: refreshes the cache, calls
`self.boundary(n, noise)` binding the result to `x, y`, and then evaluates
`np.sqrt(boundary_x ** 2 + boundary_y ** 2)` — but `boundary_x` and
`boundary_y` are UNDEFINED names, so the method always raises `NameError`
(modelled as a `none` result) after mutating the cache. -/
def Noisy_Ring.misalignment (r : Noisy_Ring) (n : ℕ) (noise : ℝ) (mag ang : ℕ → ℝ) :
    Noisy_Ring × Option (List ℝ) :=
  let r' := if r.should_find_errors false n noise then r.set_error n noise mag ang else r
  let res := Noisy_Ring.boundary r' n noise false mag ang
  (res.1, none)

/-- Model function `f` inside `ring_fit` of `fitting.py`:
`f(a, A, B) = 1 + A * cos(a - B)`.  (`ring_fit` itself delegates to
`scipy.optimize.curve_fit`, an iterative numerical optimizer that is outside
the shallow embedding.) -/
def fitModel (a A B : ℝ) : ℝ := 1 + A * Real.cos (a - B)

/-! Basic facts about the embedded definitions. -/

lemma point_d_nonneg (p : Point) : 0 ≤ p.d := Real.sqrt_nonneg _

lemma ring_d_nonneg (rg : Ring) : 0 ≤ rg.d := Real.sqrt_nonneg _

/-- Unfolding of `Point._r` with its local variables substituted. -/
lemma point_r_def (p : Point) (theta : ℝ) :
    p.r theta =
      (-(-2 * p.d * Real.cos (p.phi + Real.pi - theta)) +
        Real.sqrt ((-2 * p.d * Real.cos (p.phi + Real.pi - theta)) *
            (-2 * p.d * Real.cos (p.phi + Real.pi - theta)) - 4 * (p.d * p.d - 1))) / 2 := rfl

/-- Unfolding of `Ring._r` with its local variables substituted. -/
lemma ring_r_def (rg : Ring) (phi : ℝ) :
    rg.r phi =
      (-(-2 * rg.d * Real.cos (phi - rg.alpha)) +
        Real.sqrt ((-2 * rg.d * Real.cos (phi - rg.alpha)) *
            (-2 * rg.d * Real.cos (phi - rg.alpha)) - 4 * (rg.d * rg.d - 1))) / 2 := rfl

lemma point_rE_def (p : Point) (theta : ℝ) :
    p.rE theta =
      (mathSqrt ((-2 * p.d * Real.cos (p.phi + Real.pi - theta)) *
          (-2 * p.d * Real.cos (p.phi + Real.pi - theta)) - 4 * (p.d * p.d - 1))).map
        fun s => (-(-2 * p.d * Real.cos (p.phi + Real.pi - theta)) + s) / 2 := rfl

lemma atan2_zero_pos {x : ℝ} (hx : 0 < x) : atan2 0 x = 0 := by
  rw [atan2, if_pos hx]
  simp

lemma point_half_phi : Point.phi ⟨1/2, 0⟩ = 0 := atan2_zero_pos (by norm_num)

lemma point_half_d : Point.d ⟨1/2, 0⟩ = 1/2 := by
  show Real.sqrt (((1:ℝ)/2) ^ 2 + (0:ℝ) ^ 2) = 1/2
  rw [show ((1:ℝ)/2) ^ 2 + (0:ℝ) ^ 2 = ((1:ℝ)/2) ^ 2 by ring,
    Real.sqrt_sq (by norm_num : (0:ℝ) ≤ 1/2)]

lemma ring_half_alpha : Ring.alpha ⟨1/2, 0⟩ = 0 := atan2_zero_pos (by norm_num)

lemma ring_half_d : Ring.d ⟨1/2, 0⟩ = 1/2 := by
  show Real.sqrt (((1:ℝ)/2) ^ 2 + (0:ℝ) ^ 2) = 1/2
  rw [show ((1:ℝ)/2) ^ 2 + (0:ℝ) ^ 2 = ((1:ℝ)/2) ^ 2 by ring,
    Real.sqrt_sq (by norm_num : (0:ℝ) ≤ 1/2)]

lemma sqrt_four : Real.sqrt 4 = 2 := by
  rw [show (4:ℝ) = 2 ^ 2 by norm_num, Real.sqrt_sq (by norm_num : (0:ℝ) ≤ 2)]

/-- For `c < 0` the expression `(-b + sqrt(b*b - 4*c)) / 2` is the unique
positive root of `t^2 + b*t + c = 0`. -/
lemma posRoot_quad (b c : ℝ) (hc : c < 0) :
    ((-b + Real.sqrt (b * b - 4 * c)) / 2) ^ 2 +
        b * ((-b + Real.sqrt (b * b - 4 * c)) / 2) + c = 0 ∧
      0 < (-b + Real.sqrt (b * b - 4 * c)) / 2 ∧
      ∀ t : ℝ, t ^ 2 + b * t + c = 0 → 0 < t →
        t = (-b + Real.sqrt (b * b - 4 * c)) / 2 := by
  have hd : (0:ℝ) ≤ b * b - 4 * c := by nlinarith [mul_self_nonneg b]
  set s := Real.sqrt (b * b - 4 * c) with hs
  have hs2 : s ^ 2 = b * b - 4 * c := Real.sq_sqrt hd
  have habs : |b| < s := by
    rw [hs, ← Real.sqrt_sq_eq_abs]
    exact Real.sqrt_lt_sqrt (sq_nonneg b) (by nlinarith)
  have hb1 : b ≤ |b| := le_abs_self b
  have hb2 : -b ≤ |b| := neg_le_abs b
  refine ⟨by linear_combination hs2 / 4, by linarith, ?_⟩
  intro t ht htpos
  have hfact : (t - (-b + s) / 2) * (t - (-b - s) / 2) = 0 := by
    linear_combination ht - hs2 / 4
  rcases mul_eq_zero.1 hfact with h | h
  · linarith [sub_eq_zero.1 h]
  · have ht2 : t = (-b - s) / 2 := sub_eq_zero.1 h
    exfalso
    rw [ht2] at htpos
    linarith

/-- Evaluations of the two `_r` variants at the offset `(0.5, 0)`. -/
lemma point_half_r_zero : Point.r ⟨1/2, 0⟩ 0 = 1/2 := by
  rw [point_r_def, point_half_phi, point_half_d,
    show (0:ℝ) + Real.pi - 0 = Real.pi by ring, Real.cos_pi]
  rw [show -2 * ((1:ℝ)/2) * (-1) * (-2 * ((1:ℝ)/2) * (-1)) -
      4 * ((1:ℝ)/2 * ((1:ℝ)/2) - 1) = 4 by ring, sqrt_four]
  ring

lemma point_half_r_pi : Point.r ⟨1/2, 0⟩ Real.pi = 3/2 := by
  rw [point_r_def, point_half_phi, point_half_d,
    show (0:ℝ) + Real.pi - Real.pi = 0 by ring, Real.cos_zero]
  rw [show -2 * ((1:ℝ)/2) * 1 * (-2 * ((1:ℝ)/2) * 1) -
      4 * ((1:ℝ)/2 * ((1:ℝ)/2) - 1) = 4 by ring, sqrt_four]
  ring

lemma ring_half_r_zero : Ring.r ⟨1/2, 0⟩ 0 = 3/2 := by
  rw [ring_r_def, ring_half_alpha, ring_half_d,
    show (0:ℝ) - 0 = 0 by ring, Real.cos_zero]
  rw [show -2 * ((1:ℝ)/2) * 1 * (-2 * ((1:ℝ)/2) * 1) -
      4 * ((1:ℝ)/2 * ((1:ℝ)/2) - 1) = 4 by ring, sqrt_four]
  ring

lemma ring_half_r_pi : Ring.r ⟨1/2, 0⟩ Real.pi = 1/2 := by
  rw [ring_r_def, ring_half_alpha, ring_half_d,
    show Real.pi - 0 = Real.pi by ring, Real.cos_pi]
  rw [show -2 * ((1:ℝ)/2) * (-1) * (-2 * ((1:ℝ)/2) * (-1)) -
      4 * ((1:ℝ)/2 * ((1:ℝ)/2) - 1) = 4 by ring, sqrt_four]
  ring

/-! Claim theorems. -/

/-- C1 (amended): for every point/ring offset with `d < 1`, `Point._r θ` is
the unique positive root of `t² + b·t + c = 0` with `b = -2 d cos(α + π - θ)`
and `c = d² - 1`, exactly as the claim states; but `Ring._r θ` is the unique
positive root of the quadratic whose linear coefficient is
`b = -2 d cos(θ - α)` instead of the claimed `-2 d cos(α + π - θ)`. -/
theorem C1_root (p : Point) (rg : Ring) (theta : ℝ) (hp : p.d < 1) (hr : rg.d < 1) :
    ((Point.r p theta) ^ 2 +
          (-2 * p.d * Real.cos (p.phi + Real.pi - theta)) * Point.r p theta +
          (p.d * p.d - 1) = 0 ∧
        0 < Point.r p theta ∧
        ∀ t : ℝ, t ^ 2 + (-2 * p.d * Real.cos (p.phi + Real.pi - theta)) * t +
            (p.d * p.d - 1) = 0 → 0 < t → t = Point.r p theta) ∧
      ((Ring.r rg theta) ^ 2 +
          (-2 * rg.d * Real.cos (theta - rg.alpha)) * Ring.r rg theta +
          (rg.d * rg.d - 1) = 0 ∧
        0 < Ring.r rg theta ∧
        ∀ t : ℝ, t ^ 2 + (-2 * rg.d * Real.cos (theta - rg.alpha)) * t +
            (rg.d * rg.d - 1) = 0 → 0 < t → t = Ring.r rg theta) := by
  have hcp : p.d * p.d - 1 < 0 := by nlinarith [point_d_nonneg p]
  have hcr : rg.d * rg.d - 1 < 0 := by nlinarith [ring_d_nonneg rg]
  constructor
  · rw [point_r_def]
    exact posRoot_quad (-2 * p.d * Real.cos (p.phi + Real.pi - theta)) (p.d * p.d - 1) hcp
  · rw [ring_r_def]
    exact posRoot_quad (-2 * rg.d * Real.cos (theta - rg.alpha)) (rg.d * rg.d - 1) hcr

/-- Witness for C1: concrete instantiation at the offset `(1/2, 0)` and
`θ = 0`, where both hypotheses `d < 1` hold. -/
theorem C1_root_witness : 0 < Point.r ⟨1/2, 0⟩ 0 ∧ 0 < Ring.r ⟨1/2, 0⟩ 0 := by
  have h := C1_root ⟨1/2, 0⟩ ⟨1/2, 0⟩ 0
    (by rw [point_half_d]; norm_num) (by rw [ring_half_d]; norm_num)
  exact ⟨h.1.2.1, h.2.2.1⟩

/-- Counterexample for C1 as stated: at offset `(1/2, 0)` (so `d = 1/2`,
`α = 0`) and `θ = 0`, `Ring._r` returns `3/2`, which is not a root of the
claimed quadratic `t² + b·t + c = 0` with `b = -2 d cos(α + π - θ)`. -/
theorem C1_counterexample :
    Ring.r ⟨1/2, 0⟩ 0 = 3/2 ∧
      (Ring.r ⟨1/2, 0⟩ 0) ^ 2 +
          (-2 * Ring.d ⟨1/2, 0⟩ *
            Real.cos (Ring.alpha ⟨1/2, 0⟩ + Real.pi - 0)) * Ring.r ⟨1/2, 0⟩ 0 +
          (Ring.d ⟨1/2, 0⟩ * Ring.d ⟨1/2, 0⟩ - 1) ≠ 0 := by
  refine ⟨ring_half_r_zero, ?_⟩
  rw [ring_half_r_zero, ring_half_alpha, ring_half_d,
    show (0:ℝ) + Real.pi - 0 = Real.pi by ring, Real.cos_pi]
  norm_num

/-- C3 (amended): at the offset `(0.5, 0)` the `Ring` variant returns
`distanceAt(0) = 1.5` and `distanceAt(π) = 0.5` as the claim states, but the
`Point` variant of `alignment.py` returns the two values swapped:
`distanceAt(0) = 0.5` and `distanceAt(π) = 1.5`. -/
theorem C3_values :
    Ring.r ⟨1/2, 0⟩ 0 = 3/2 ∧ Ring.r ⟨1/2, 0⟩ Real.pi = 1/2 ∧
      Point.r ⟨1/2, 0⟩ 0 = 1/2 ∧ Point.r ⟨1/2, 0⟩ Real.pi = 3/2 :=
  ⟨ring_half_r_zero, ring_half_r_pi, point_half_r_zero, point_half_r_pi⟩

/-- Counterexample for C3 as stated: `Point._r` (the `distanceAt` of
`alignment.py`, the implementation matching the spec's §4.1 algorithm) at
the point `(0.5, 0)` returns `0.5` at angle `0`, not the claimed `1.5`. -/
theorem C3_counterexample :
    Point.r ⟨1/2, 0⟩ 0 = 1/2 ∧ Point.r ⟨1/2, 0⟩ 0 ≠ 3/2 := by
  refine ⟨point_half_r_zero, ?_⟩
  rw [point_half_r_zero]
  norm_num

/-! Domain-error behaviour of `_r` (math.sqrt raising on a negative
discriminant). -/

lemma point_one_phi : Point.phi ⟨1, 0⟩ = 0 := atan2_zero_pos (by norm_num)

lemma point_one_d : Point.d ⟨1, 0⟩ = 1 := by
  show Real.sqrt ((1:ℝ) ^ 2 + (0:ℝ) ^ 2) = 1
  rw [show (1:ℝ) ^ 2 + (0:ℝ) ^ 2 = 1 by ring, Real.sqrt_one]

/-- When the offset satisfies `d ≤ 1` the discriminant inside `Point._r` is
nonnegative, so `math.sqrt` does not raise and the fallible and total models
agree. -/
lemma point_rE_eq_some (p : Point) (theta : ℝ) (h : p.d ≤ 1) :
    p.rE theta = some (p.r theta) := by
  have hd : (0:ℝ) ≤ (-2 * p.d * Real.cos (p.phi + Real.pi - theta)) *
      (-2 * p.d * Real.cos (p.phi + Real.pi - theta)) - 4 * (p.d * p.d - 1) := by
    nlinarith [mul_self_nonneg (-2 * p.d * Real.cos (p.phi + Real.pi - theta)),
      point_d_nonneg p]
  rw [point_rE_def]
  simp only [mathSqrt]
  rw [if_neg (not_lt.2 hd), Option.map_some', point_r_def]

/-- C5 (amended): for `d < 1` the method returns a finite positive value;
for `d = 1` exactly it does NOT signal a DomainError (the discriminant
degenerates to `b*b ≥ 0`), it returns a value — indeed it never signals for
any `d ≤ 1`; it signals the math domain error exactly when the discriminant
`b*b - 4*c` is negative. -/
theorem C5_domain (p : Point) (theta : ℝ) :
    (p.d < 1 → p.rE theta = some (p.r theta) ∧ 0 < p.r theta) ∧
      (p.d = 1 → p.rE theta = some (p.r theta)) ∧
      (p.d ≤ 1 → p.rE theta ≠ none) ∧
      (p.rE theta = none ↔
        (-2 * p.d * Real.cos (p.phi + Real.pi - theta)) *
            (-2 * p.d * Real.cos (p.phi + Real.pi - theta)) -
          4 * (p.d * p.d - 1) < 0) := by
  refine ⟨fun h => ⟨point_rE_eq_some p theta h.le, ?_⟩,
    fun h => point_rE_eq_some p theta h.le,
    fun h => by rw [point_rE_eq_some p theta h]; exact Option.some_ne_none _, ?_⟩
  · have hc : p.d * p.d - 1 < 0 := by nlinarith [point_d_nonneg p]
    rw [point_r_def]
    exact (posRoot_quad (-2 * p.d * Real.cos (p.phi + Real.pi - theta))
      (p.d * p.d - 1) hc).2.1
  · rw [point_rE_def]
    simp only [mathSqrt]
    split_ifs with h
    · simp only [Option.map_none']
      exact iff_of_true trivial h
    · simp only [Option.map_some']
      exact iff_of_false (Option.some_ne_none _) h

/-- Witness for C5 (amended) at the offset `(1/2, 0)`, angle `0`. -/
theorem C5_domain_witness :
    Point.rE ⟨1/2, 0⟩ 0 = some (Point.r ⟨1/2, 0⟩ 0) ∧ 0 < Point.r ⟨1/2, 0⟩ 0 :=
  (C5_domain ⟨1/2, 0⟩ 0).1 (by rw [point_half_d]; norm_num)

/-- Counterexample for C5 as stated: at the offset `(1, 0)` we have `d = 1`
exactly, yet `distanceAt(0)` does not signal a DomainError — the discriminant
is `4 ≥ 0` and the method silently returns the degenerate radius `0`. -/
theorem C5_counterexample : Point.d ⟨1, 0⟩ = 1 ∧ Point.rE ⟨1, 0⟩ 0 = some 0 := by
  refine ⟨point_one_d, ?_⟩
  rw [point_rE_def, point_one_phi, point_one_d,
    show (0:ℝ) + Real.pi - 0 = Real.pi by ring, Real.cos_pi]
  rw [show (-2 * (1:ℝ) * -1) * (-2 * (1:ℝ) * -1) - 4 * ((1:ℝ) * 1 - 1) = 4 by ring]
  simp only [mathSqrt]
  rw [if_neg (by norm_num : ¬ (4:ℝ) < 0), Option.map_some', sqrt_four]
  norm_num

/-! Shape facts about the sampled profile. -/

lemma linspace_length (a b : ℝ) (n : ℕ) : (linspace a b n).length = n := by
  rw [linspace, List.length_map, List.length_range]

lemma mapOpt_some_of_forall {α β : Type} (f : α → Option β) :
    ∀ l : List α, (∀ x ∈ l, ∃ y, f x = some y) →
      ∃ ys, mapOpt f l = some ys ∧ ys.length = l.length := by
  intro l
  induction l with
  | nil => exact fun _ => ⟨[], rfl, rfl⟩
  | cons a l ih =>
    intro h
    obtain ⟨b, hb⟩ := h a (List.mem_cons_self a l)
    obtain ⟨ys, hys, hlen⟩ := ih fun x hx => h x (List.mem_cons_of_mem a hx)
    exact ⟨b :: ys, by simp [mapOpt, hb, hys], by simp [hlen]⟩

/-- For an offset inside the unit circle, `Point.misalignment` succeeds and
returns two 50-element lists, whatever `n` was requested. -/
lemma point_misalignment_lengths (p : Point) (n : ℕ) (h : p.d < 1) :
    (Point.misalignment p n).map (fun q => (q.1.length, q.2.length)) = some (50, 50) := by
  obtain ⟨ys, hys, hlen⟩ := mapOpt_some_of_forall p.rE (linspace 0 (2 * Real.pi) 50)
    (fun x _ => ⟨p.r x, point_rE_eq_some p x h.le⟩)
  show ((mapOpt p.rE (linspace 0 (2 * Real.pi) 50)).map
      fun ds => (ds, linspace 0 (2 * Real.pi) 50)).map
        (fun q => (q.1.length, q.2.length)) = some (50, 50)
  rw [hys]
  simp only [Option.map_some']
  rw [hlen, linspace_length]

/-- C2 (evaluated at the failing input): `sampleProfile(point, 10)` returns
50 samples, not 10 — `np.linspace` is called without `n` — and the angle
grid contains the endpoint `2π`, so it is not a grid over `[0, 2π)` with
spacing `2π/n`. -/
theorem C2_grid :
    (Point.misalignment ⟨1/2, 0⟩ 10).map (fun q => (q.1.length, q.2.length)) =
        some (50, 50) ∧
      (linspace 0 (2 * Real.pi) 50).length = 50 ∧
      2 * Real.pi ∈ linspace 0 (2 * Real.pi) 50 := by
  refine ⟨point_misalignment_lengths ⟨1/2, 0⟩ 10 (by rw [point_half_d]; norm_num),
    linspace_length 0 (2 * Real.pi) 50, ?_⟩
  have h49 : (49:ℕ) ∈ List.range 50 := List.mem_range.2 (by norm_num)
  refine List.mem_map.2 ⟨49, h49, ?_⟩
  push_cast
  ring_nf

/-- C7 (evaluated): the sampled profile is identical for every requested
sample count `n` — `misalignment` ignores `n` entirely — so the round-trip
fit error cannot shrink as `n` increases. -/
theorem C7_profile_ignores_n : ∀ (p : Point) (rg : Ring) (n m : ℕ),
    Point.misalignment p n = Point.misalignment p m ∧
      Ring.misalignment rg n = Ring.misalignment rg m :=
  fun _ _ _ _ => ⟨rfl, rfl⟩

/-- C6 (evaluated): `Noisy_Ring.misalignment` never returns a result — its
body reads the undefined names `boundary_x`, `boundary_y` and raises
`NameError` on every call. -/
theorem C6_name_error : ∀ (r : Noisy_Ring) (n : ℕ) (noise : ℝ) (mag ang : ℕ → ℝ),
    (Noisy_Ring.misalignment r n noise mag ang).2 = none :=
  fun _ _ _ _ _ => rfl

/-! State machine of the noise cache. -/

open Classical in
lemma Noisy_Ring.boundary_fst (r : Noisy_Ring) (n : ℕ) (level : ℝ) (force : Bool)
    (mag ang : ℕ → ℝ) :
    (Noisy_Ring.boundary r n level force mag ang).1 =
      if r.should_find_errors force n level then r.set_error n level mag ang else r := rfl

lemma Noisy_Ring.boundary_snd (r : Noisy_Ring) (n : ℕ) (level : ℝ) (force : Bool)
    (mag ang : ℕ → ℝ) :
    (Noisy_Ring.boundary r n level force mag ang).2 =
      Noisy_Ring.boundaryOut r.x r.y n
        (Noisy_Ring.boundary r n level force mag ang).1.x_error
        (Noisy_Ring.boundary r n level force mag ang).1.y_error := rfl

lemma Noisy_Ring.set_error_x_error (r : Noisy_Ring) (n : ℕ) (level : ℝ) (mag ang : ℕ → ℝ) :
    (r.set_error n level mag ang).x_error =
      some ((List.range n).map fun i => level * mag i * Real.cos (2 * Real.pi * ang i)) := rfl

lemma Noisy_Ring.set_error_y_error (r : Noisy_Ring) (n : ℕ) (level : ℝ) (mag ang : ℕ → ℝ) :
    (r.set_error n level mag ang).y_error =
      some ((List.range n).map fun i => level * mag i * Real.sin (2 * Real.pi * ang i)) := rfl

/-- Right after `_set_error(n, level)` the cache-validity check passes. -/
lemma not_should_find_set_error (r : Noisy_Ring) (n : ℕ) (level : ℝ) (mag ang : ℕ → ℝ) :
    ¬ (r.set_error n level mag ang).should_find_errors false n level := by
  unfold Noisy_Ring.should_find_errors
  push_neg
  exact ⟨by simp, by simp [Noisy_Ring.set_error],
    ⟨_, rfl, by simp [List.length_map, List.length_range]⟩,
    by simp [Noisy_Ring.set_error]⟩

/-- A state that passes the check for `(force, n, level)` also passes it with
the force flag cleared. -/
lemma not_should_find_valid (r : Noisy_Ring) (n : ℕ) (level : ℝ) (force : Bool)
    (h : ¬ r.should_find_errors force n level) :
    ¬ r.should_find_errors false n level := by
  unfold Noisy_Ring.should_find_errors at h ⊢
  push_neg at h ⊢
  exact ⟨by simp, h.2.1, h.2.2.1, h.2.2.2⟩

/-- After any `boundary` call the resulting state passes the cache-validity
check for the same `(n, level)`. -/
lemma boundary_state_valid (r : Noisy_Ring) (n : ℕ) (level : ℝ) (force : Bool)
    (mag ang : ℕ → ℝ) :
    ¬ (Noisy_Ring.boundary r n level force mag ang).1.should_find_errors false n level := by
  rw [Noisy_Ring.boundary_fst]
  split_ifs with h
  · exact not_should_find_set_error r n level mag ang
  · exact not_should_find_valid r n level force h

lemma boundary_xy (r : Noisy_Ring) (n : ℕ) (level : ℝ) (force : Bool) (mag ang : ℕ → ℝ) :
    (Noisy_Ring.boundary r n level force mag ang).1.x = r.x ∧
      (Noisy_Ring.boundary r n level force mag ang).1.y = r.y := by
  rw [Noisy_Ring.boundary_fst]
  split_ifs <;> exact ⟨rfl, rfl⟩

/-- After any `boundary(n, level, ...)` call the cached `_x_error` exists and
has length `n`. -/
lemma boundary_cache_length (r : Noisy_Ring) (n : ℕ) (level : ℝ) (force : Bool)
    (mag ang : ℕ → ℝ) :
    ∃ xs, (Noisy_Ring.boundary r n level force mag ang).1.x_error = some xs ∧
      xs.length = n := by
  rw [Noisy_Ring.boundary_fst]
  split_ifs with h
  · exact ⟨_, rfl, by simp [List.length_map, List.length_range]⟩
  · unfold Noisy_Ring.should_find_errors at h
    push_neg at h
    exact h.2.2.1

/-- Idempotence: an immediately repeated `boundary` call with the same
`(n, level)` and no forced refresh is a no-op returning the identical state
and output, no matter what fresh draws the repeat call could have used. -/
lemma boundary_idem (r : Noisy_Ring) (n : ℕ) (level : ℝ) (m1 a1 m2 a2 : ℕ → ℝ) :
    Noisy_Ring.boundary ((Noisy_Ring.boundary r n level false m1 a1).1) n level false m2 a2 =
      Noisy_Ring.boundary r n level false m1 a1 := by
  have hval := boundary_state_valid r n level false m1 a1
  have hfst : (Noisy_Ring.boundary ((Noisy_Ring.boundary r n level false m1 a1).1) n level
      false m2 a2).1 = (Noisy_Ring.boundary r n level false m1 a1).1 := by
    rw [Noisy_Ring.boundary_fst, if_neg hval]
  have hsnd : (Noisy_Ring.boundary ((Noisy_Ring.boundary r n level false m1 a1).1) n level
      false m2 a2).2 = (Noisy_Ring.boundary r n level false m1 a1).2 := by
    rw [Noisy_Ring.boundary_snd ((Noisy_Ring.boundary r n level false m1 a1).1) n level
        false m2 a2, Noisy_Ring.boundary_snd r n level false m1 a1, hfst,
      (boundary_xy r n level false m1 a1).1, (boundary_xy r n level false m1 a1).2]
  exact Prod.ext hfst hsnd

/-- Regeneration: whenever the cache-invalidation condition holds, the state
after `boundary` is exactly `_set_error(n, level)` with the fresh draws. -/
lemma boundary_regen (r : Noisy_Ring) (n : ℕ) (level : ℝ) (force : Bool) (mag ang : ℕ → ℝ)
    (h : force = true ∨ r.x_error = none ∨
      (∃ xs, r.x_error = some xs ∧ xs.length ≠ n) ∨ r.noise ≠ some level) :
    (Noisy_Ring.boundary r n level force mag ang).1 = r.set_error n level mag ang := by
  have hs : r.should_find_errors force n level := by
    unfold Noisy_Ring.should_find_errors
    rcases h with h | h | ⟨xs, hxs, hlen⟩ | h
    · exact Or.inl h
    · exact Or.inr (Or.inl h)
    · refine Or.inr (Or.inr (Or.inl fun ys hys => ?_))
      rw [hxs] at hys
      obtain rfl := Option.some.inj hys
      exact hlen
    · exact Or.inr (Or.inr (Or.inr h))
  rw [Noisy_Ring.boundary_fst, if_pos hs]

/-- C4: successive `boundary` calls with identical `n` and `level` and no
forced refresh reuse the cache — the second call returns the identical
state and identical output, whatever fresh random draws it could have used —
while a call with the force flag set, or with no cache yet, or with a
cached length different from `n`, or a cached noise level different from
`level`, regenerates the perturbations via `_set_error`. -/
theorem C4_cache :
    (∀ (r : Noisy_Ring) (n : ℕ) (level : ℝ) (m1 a1 m2 a2 : ℕ → ℝ),
      Noisy_Ring.boundary ((Noisy_Ring.boundary r n level false m1 a1).1) n level false m2 a2 =
        Noisy_Ring.boundary r n level false m1 a1) ∧
    (∀ (r : Noisy_Ring) (n : ℕ) (level : ℝ) (force : Bool) (mag ang : ℕ → ℝ),
      (force = true ∨ r.x_error = none ∨
        (∃ xs, r.x_error = some xs ∧ xs.length ≠ n) ∨ r.noise ≠ some level) →
      (Noisy_Ring.boundary r n level force mag ang).1 = r.set_error n level mag ang) :=
  ⟨boundary_idem, boundary_regen⟩

/-- Witness for C4: a fresh ring (no cache yet) regenerates on its first
`boundary` call. -/
theorem C4_cache_witness :
    (Noisy_Ring.boundary ⟨0, 0, none, none, none⟩ 50 (1/20) false
        (fun _ => 0) (fun _ => 0)).1 =
      Noisy_Ring.set_error ⟨0, 0, none, none, none⟩ 50 (1/20) (fun _ => 0) (fun _ => 0) :=
  C4_cache.2 ⟨0, 0, none, none, none⟩ 50 (1/20) false (fun _ => 0) (fun _ => 0)
    (Or.inr (Or.inl rfl))

/-! Shapes of the noisy boundary. -/

lemma npAdd_eq_length {a b : List ℝ} (h : a.length = b.length) :
    npAdd a b = some (List.zipWith (fun s t => s + t) a b) := by
  simp only [npAdd]
  rw [if_pos h]

lemma npAdd_one {a b : List ℝ} (hne : a.length ≠ b.length) (hb : b.length = 1) :
    npAdd a b = some (a.map fun s => s + b.headI) := by
  simp only [npAdd]
  rw [if_neg hne, if_pos hb]

lemma npAdd_none {a b : List ℝ} (h : a.length ≠ b.length) (hb : b.length ≠ 1)
    (ha : a.length ≠ 1) : npAdd a b = none := by
  simp only [npAdd]
  rw [if_neg h, if_neg hb, if_neg ha]

lemma ring_boundary_length₁ (rg : Ring) (n : ℕ) : (Ring.boundary rg n).1.length = 50 := by
  show ((linspace 0 (2 * Real.pi) 50).map fun t => rg.x + Real.cos t).length = 50
  rw [List.length_map, linspace_length]

lemma ring_boundary_length₂ (rg : Ring) (n : ℕ) : (Ring.boundary rg n).2.length = 50 := by
  show ((linspace 0 (2 * Real.pi) 50).map fun t => rg.y + Real.sin t).length = 50
  rw [List.length_map, linspace_length]

lemma boundaryOut_some_some (x y : ℝ) (n : ℕ) (xs ys : List ℝ) :
    Noisy_Ring.boundaryOut x y n (some xs) (some ys) =
      (npAdd (Ring.boundary ⟨x, y⟩ n).1 xs).bind fun bx =>
        (npAdd (Ring.boundary ⟨x, y⟩ n).2 ys).map fun bys => (bx, bys) := rfl

/-- Whenever the requested `n` is neither 50 (the hard-coded grid size) nor 1
(which numpy broadcasts), the noisy `boundary` raises a broadcast error. -/
lemma boundary_shape_error (r : Noisy_Ring) (n : ℕ) (level : ℝ) (force : Bool)
    (mag ang : ℕ → ℝ) (h50 : n ≠ 50) (h1 : n ≠ 1) :
    (Noisy_Ring.boundary r n level force mag ang).2 = none := by
  obtain ⟨xs, hxs, hlen⟩ := boundary_cache_length r n level force mag ang
  rw [Noisy_Ring.boundary_snd, hxs]
  cases hy : (Noisy_Ring.boundary r n level force mag ang).1.y_error with
  | none => rfl
  | some ys =>
    rw [boundaryOut_some_some,
      npAdd_none (by rw [ring_boundary_length₁, hlen]; exact fun hh => h50 hh.symm)
        (by rw [hlen]; exact h1) (by rw [ring_boundary_length₁]; norm_num)]
    rfl

lemma boundary_fresh_state (x y level : ℝ) (n : ℕ) (mag ang : ℕ → ℝ) :
    (Noisy_Ring.boundary ⟨x, y, none, none, none⟩ n level false mag ang).1 =
      Noisy_Ring.set_error ⟨x, y, none, none, none⟩ n level mag ang :=
  boundary_regen _ n level false mag ang (Or.inr (Or.inl rfl))

/-- From a fresh state, `boundary(50, level)` succeeds with two 50-point
coordinate lists. -/
lemma boundary_fresh_50 (x y level : ℝ) (mag ang : ℕ → ℝ) :
    ((Noisy_Ring.boundary ⟨x, y, none, none, none⟩ 50 level false mag ang).2).map
      (fun q => (q.1.length, q.2.length)) = some (50, 50) := by
  rw [Noisy_Ring.boundary_snd, boundary_fresh_state,
    Noisy_Ring.set_error_x_error, Noisy_Ring.set_error_y_error, boundaryOut_some_some,
    npAdd_eq_length (by rw [ring_boundary_length₁, List.length_map, List.length_range]),
    npAdd_eq_length (by rw [ring_boundary_length₂, List.length_map, List.length_range])]
  simp [List.length_zipWith, ring_boundary_length₁, ring_boundary_length₂,
    List.length_map, List.length_range]

/-- From a fresh state, `boundary(1, level)` does NOT raise: the length-1
perturbation array broadcasts over the 50 exact boundary points, silently
yielding 50 points. -/
lemma boundary_fresh_1 (x y level : ℝ) (mag ang : ℕ → ℝ) :
    ((Noisy_Ring.boundary ⟨x, y, none, none, none⟩ 1 level false mag ang).2).map
      (fun q => (q.1.length, q.2.length)) = some (50, 50) := by
  rw [Noisy_Ring.boundary_snd, boundary_fresh_state,
    Noisy_Ring.set_error_x_error, Noisy_Ring.set_error_y_error, boundaryOut_some_some,
    npAdd_one (by rw [ring_boundary_length₁, List.length_map, List.length_range]; norm_num)
      (by rw [List.length_map, List.length_range]),
    npAdd_one (by rw [ring_boundary_length₂, List.length_map, List.length_range]; norm_num)
      (by rw [List.length_map, List.length_range])]
  simp [List.length_map, ring_boundary_length₁, ring_boundary_length₂]

/-- C10 (amended): for every `n` other than 50 and 1 the noisy
`boundaryPoints(n, level)` fails with a shape/broadcast error; `n = 50`
succeeds with 50 points; and — contrary to the claim's "every n ≠ 50" —
`n = 1` also does not fail: numpy broadcasts the single cached perturbation
over the 50 exact boundary points and returns 50 points. -/
theorem C10_shape :
    (∀ (r : Noisy_Ring) (n : ℕ) (level : ℝ) (force : Bool) (mag ang : ℕ → ℝ),
        n ≠ 50 → n ≠ 1 → (Noisy_Ring.boundary r n level force mag ang).2 = none) ∧
      (∀ (x y level : ℝ) (mag ang : ℕ → ℝ),
        ((Noisy_Ring.boundary ⟨x, y, none, none, none⟩ 50 level false mag ang).2).map
          (fun q => (q.1.length, q.2.length)) = some (50, 50)) ∧
      (∀ (x y level : ℝ) (mag ang : ℕ → ℝ),
        ((Noisy_Ring.boundary ⟨x, y, none, none, none⟩ 1 level false mag ang).2).map
          (fun q => (q.1.length, q.2.length)) = some (50, 50)) :=
  ⟨fun r n level force mag ang => boundary_shape_error r n level force mag ang,
    boundary_fresh_50, boundary_fresh_1⟩

/-- Witness for C10: concrete failing call (`n = 2`) and succeeding call
(`n = 50`). -/
theorem C10_shape_witness :
    (Noisy_Ring.boundary ⟨0, 0, none, none, none⟩ 2 (1/20) false
        (fun _ => 0) (fun _ => 0)).2 = none ∧
      ((Noisy_Ring.boundary ⟨0, 0, none, none, none⟩ 50 (1/20) false
          (fun _ => 0) (fun _ => 0)).2).map
        (fun q => (q.1.length, q.2.length)) = some (50, 50) :=
  ⟨C10_shape.1 ⟨0, 0, none, none, none⟩ 2 (1/20) false (fun _ => 0) (fun _ => 0)
      (by norm_num) (by norm_num),
    C10_shape.2.1 0 0 (1/20) (fun _ => 0) (fun _ => 0)⟩

/-- Counterexample for C10 as stated: `n = 1 ≠ 50`, yet the call does not
fail — it silently returns 50 broadcast points. -/
theorem C10_counterexample :
    ((Noisy_Ring.boundary ⟨0, 0, none, none, none⟩ 1 (1/20) false
        (fun _ => 0) (fun _ => 0)).2).map
      (fun q => (q.1.length, q.2.length)) = some (50, 50) :=
  boundary_fresh_1 0 0 (1/20) (fun _ => 0) (fun _ => 0)

/-- C9 (amended): no InvalidArgument validation exists anywhere:
`sampleProfile(point, 0)` succeeds and returns the fixed 50-sample profile
(the `n` argument being ignored), and noisy boundary generation with
`n = 0` fails with a shape/broadcast error — not with an InvalidArgument
condition. -/
theorem C9_validation :
    (∀ (p : Point) (n : ℕ), p.d < 1 →
        (Point.misalignment p n).map (fun q => (q.1.length, q.2.length)) = some (50, 50)) ∧
      (∀ (r : Noisy_Ring) (level : ℝ) (force : Bool) (mag ang : ℕ → ℝ),
        (Noisy_Ring.boundary r 0 level force mag ang).2 = none) :=
  ⟨point_misalignment_lengths,
    fun r level force mag ang =>
      boundary_shape_error r 0 level force mag ang (by norm_num) (by norm_num)⟩

/-- Witness for C9 (amended) at concrete inputs. -/
theorem C9_validation_witness :
    (Point.misalignment ⟨1/2, 0⟩ 0).map (fun q => (q.1.length, q.2.length)) =
        some (50, 50) ∧
      (Noisy_Ring.boundary ⟨0, 0, none, none, none⟩ 0 (1/20) false
        (fun _ => 0) (fun _ => 0)).2 = none :=
  ⟨C9_validation.1 ⟨1/2, 0⟩ 0 (by rw [point_half_d]; norm_num),
    C9_validation.2 ⟨0, 0, none, none, none⟩ (1/20) false (fun _ => 0) (fun _ => 0)⟩

/-- Counterexample for C9 as stated: `sampleProfile(point, 0)` does not
signal InvalidArgument — it succeeds, returning the full 50-sample
profile. -/
theorem C9_counterexample :
    (Point.misalignment ⟨1/2, 0⟩ 0).map (fun q => (q.1.length, q.2.length)) =
      some (50, 50) :=
  point_misalignment_lengths ⟨1/2, 0⟩ 0 (by rw [point_half_d]; norm_num)

/-! Mean of the radial profile over a full turn. -/

/-- Closed form of `Point._r`: `-d cos(θ - φ) + sqrt(1 - d² sin²(θ - φ))`. -/
lemma point_r_eq (p : Point) (theta : ℝ) :
    p.r theta = -p.d * Real.cos (theta - p.phi) +
      Real.sqrt (1 - p.d ^ 2 * Real.sin (theta - p.phi) ^ 2) := by
  rw [point_r_def]
  have hc : Real.cos (p.phi + Real.pi - theta) = -Real.cos (theta - p.phi) := by
    rw [show p.phi + Real.pi - theta = Real.pi - (theta - p.phi) by ring, Real.cos_pi_sub]
  rw [hc]
  have harg : -2 * p.d * -Real.cos (theta - p.phi) * (-2 * p.d * -Real.cos (theta - p.phi)) -
      4 * (p.d * p.d - 1) = 4 * (1 - p.d ^ 2 * Real.sin (theta - p.phi) ^ 2) := by
    linear_combination (4 * p.d ^ 2) * Real.sin_sq_add_cos_sq (theta - p.phi)
  rw [harg, Real.sqrt_mul (by norm_num : (0:ℝ) ≤ 4), sqrt_four]
  ring

/-- Closed form of `Ring._r`: `d cos(φ - α) + sqrt(1 - d² sin²(φ - α))`. -/
lemma ring_r_eq (rg : Ring) (phi : ℝ) :
    rg.r phi = rg.d * Real.cos (phi - rg.alpha) +
      Real.sqrt (1 - rg.d ^ 2 * Real.sin (phi - rg.alpha) ^ 2) := by
  rw [ring_r_def]
  have harg : -2 * rg.d * Real.cos (phi - rg.alpha) * (-2 * rg.d * Real.cos (phi - rg.alpha)) -
      4 * (rg.d * rg.d - 1) = 4 * (1 - rg.d ^ 2 * Real.sin (phi - rg.alpha) ^ 2) := by
    linear_combination (4 * rg.d ^ 2) * Real.sin_sq_add_cos_sq (phi - rg.alpha)
  rw [harg, Real.sqrt_mul (by norm_num : (0:ℝ) ≤ 4), sqrt_four]
  ring

lemma cont_sqrt_term (d φ : ℝ) :
    Continuous fun θ : ℝ => Real.sqrt (1 - d ^ 2 * Real.sin (θ - φ) ^ 2) := by
  have h : Continuous fun θ : ℝ => 1 - d ^ 2 * Real.sin (θ - φ) ^ 2 := by fun_prop
  exact Real.continuous_sqrt.comp h

lemma sqrt_term_periodic (d : ℝ) :
    Function.Periodic (fun θ : ℝ => Real.sqrt (1 - d ^ 2 * Real.sin θ ^ 2))
      (2 * Real.pi) := by
  intro x
  simp [Real.sin_add_two_pi]

/-- Translating the viewing angle by the bearing does not change the mean of
the square-root term over a full turn. -/
lemma integral_sqrt_term_shift (d φ : ℝ) :
    (∫ θ in (0:ℝ)..(2 * Real.pi), Real.sqrt (1 - d ^ 2 * Real.sin (θ - φ) ^ 2)) =
      ∫ θ in (0:ℝ)..(2 * Real.pi), Real.sqrt (1 - d ^ 2 * Real.sin θ ^ 2) := by
  rw [intervalIntegral.integral_comp_sub_right
    (fun x => Real.sqrt (1 - d ^ 2 * Real.sin x ^ 2)) φ]
  have h := (sqrt_term_periodic d).intervalIntegral_add_eq (0 - φ) 0
  rw [show (0:ℝ) - φ + 2 * Real.pi = 2 * Real.pi - φ by ring,
    show (0:ℝ) + 2 * Real.pi = 2 * Real.pi by ring] at h
  exact h

lemma sqrt_term_le_one (d θ : ℝ) : Real.sqrt (1 - d ^ 2 * Real.sin θ ^ 2) ≤ 1 :=
  le_trans (Real.sqrt_le_sqrt (by nlinarith [sq_nonneg (d * Real.sin θ)]))
    (le_of_eq Real.sqrt_one)

/-- Strict bound: over a full turn the square-root term averages to strictly
less than 1 once `d > 0` (at `θ = π/2` it dips to `sqrt(1 - d²) < 1`). -/
lemma integral_sqrt_term_lt (d : ℝ) (hd : 0 < d) (hd1 : d < 1) :
    (∫ θ in (0:ℝ)..(2 * Real.pi), Real.sqrt (1 - d ^ 2 * Real.sin θ ^ 2)) <
      2 * Real.pi := by
  have hpi := Real.pi_pos
  have h2pi : (0:ℝ) < 2 * Real.pi := by linarith
  have hlt : (∫ θ in (0:ℝ)..(2 * Real.pi), Real.sqrt (1 - d ^ 2 * Real.sin θ ^ 2)) <
      ∫ _ in (0:ℝ)..(2 * Real.pi), (1:ℝ) := by
    apply intervalIntegral.integral_lt_integral_of_continuousOn_of_le_of_exists_lt h2pi
    · exact (cont_sqrt_term d 0).continuousOn.congr fun x _ => by rw [sub_zero]
    · exact continuousOn_const
    · exact fun x _ => sqrt_term_le_one d x
    · refine ⟨Real.pi / 2, ⟨by linarith, by linarith⟩, ?_⟩
      rw [Real.sin_pi_div_two, show (1:ℝ) - d ^ 2 * 1 ^ 2 = 1 - d ^ 2 by ring]
      exact (Real.sqrt_lt' one_pos).2 (by nlinarith)
  simpa using hlt

/-- The cosine term integrates to zero over a full turn, for any phase. -/
lemma integral_cos_shift (φ : ℝ) :
    (∫ θ in (0:ℝ)..(2 * Real.pi), Real.cos (θ - φ)) = 0 := by
  rw [intervalIntegral.integral_comp_sub_right Real.cos φ, integral_cos,
    show (0:ℝ) - φ = -φ by ring, Real.sin_two_pi_sub, Real.sin_neg]
  ring

/-- The mean of `Point._r` over a full turn is strictly below 1 for
`0 < d < 1`: the profile is biased inward, not outward. -/
lemma point_mean_lt (p : Point) (h0 : 0 < p.d) (h1 : p.d < 1) :
    (∫ θ in (0:ℝ)..(2 * Real.pi), Point.r p θ) / (2 * Real.pi) < 1 := by
  have hpi := Real.pi_pos
  have hrw : (fun θ : ℝ => Point.r p θ) = fun θ : ℝ =>
      -p.d * Real.cos (θ - p.phi) +
        Real.sqrt (1 - p.d ^ 2 * Real.sin (θ - p.phi) ^ 2) :=
    funext fun θ => point_r_eq p θ
  have hi1 : IntervalIntegrable (fun θ : ℝ => -p.d * Real.cos (θ - p.phi))
      MeasureTheory.volume 0 (2 * Real.pi) :=
    (by fun_prop : Continuous fun θ : ℝ => -p.d * Real.cos (θ - p.phi)).intervalIntegrable 0
      (2 * Real.pi)
  have hi2 : IntervalIntegrable
      (fun θ : ℝ => Real.sqrt (1 - p.d ^ 2 * Real.sin (θ - p.phi) ^ 2))
      MeasureTheory.volume 0 (2 * Real.pi) :=
    (cont_sqrt_term p.d p.phi).intervalIntegrable 0 (2 * Real.pi)
  have hint : (∫ θ in (0:ℝ)..(2 * Real.pi), Point.r p θ) < 2 * Real.pi := by
    rw [hrw, intervalIntegral.integral_add hi1 hi2,
      intervalIntegral.integral_const_mul, integral_cos_shift,
      integral_sqrt_term_shift]
    have := integral_sqrt_term_lt p.d h0 h1
    linarith [this]
  rw [div_lt_one (by linarith)]
  exact hint

/-- The mean of `Ring._r` over a full turn is also strictly below 1 for
`0 < d < 1`. -/
lemma ring_mean_lt (rg : Ring) (h0 : 0 < rg.d) (h1 : rg.d < 1) :
    (∫ θ in (0:ℝ)..(2 * Real.pi), Ring.r rg θ) / (2 * Real.pi) < 1 := by
  have hpi := Real.pi_pos
  have hrw : (fun θ : ℝ => Ring.r rg θ) = fun θ : ℝ =>
      rg.d * Real.cos (θ - rg.alpha) +
        Real.sqrt (1 - rg.d ^ 2 * Real.sin (θ - rg.alpha) ^ 2) :=
    funext fun θ => ring_r_eq rg θ
  have hi1 : IntervalIntegrable (fun θ : ℝ => rg.d * Real.cos (θ - rg.alpha))
      MeasureTheory.volume 0 (2 * Real.pi) :=
    (by fun_prop : Continuous fun θ : ℝ => rg.d * Real.cos (θ - rg.alpha)).intervalIntegrable 0
      (2 * Real.pi)
  have hi2 : IntervalIntegrable
      (fun θ : ℝ => Real.sqrt (1 - rg.d ^ 2 * Real.sin (θ - rg.alpha) ^ 2))
      MeasureTheory.volume 0 (2 * Real.pi) :=
    (cont_sqrt_term rg.d rg.alpha).intervalIntegrable 0 (2 * Real.pi)
  have hint : (∫ θ in (0:ℝ)..(2 * Real.pi), Ring.r rg θ) < 2 * Real.pi := by
    rw [hrw, intervalIntegral.integral_add hi1 hi2,
      intervalIntegral.integral_const_mul, integral_cos_shift,
      integral_sqrt_term_shift]
    have := integral_sqrt_term_lt rg.d h0 h1
    linarith [this]
  rw [div_lt_one (by linarith)]
  exact hint

/-- C8 (amended): for every offset with `0 < d < 1` the mean over `θ` of the
radial profile is strictly LESS than 1 (the profile is biased inward), for
both the `Point` and the `Ring` variant of `_r` — the claimed `mean ≥ 1`
fails for every such offset. -/
theorem C8_mean (p : Point) (rg : Ring) (hp0 : 0 < p.d) (hp1 : p.d < 1)
    (hr0 : 0 < rg.d) (hr1 : rg.d < 1) :
    (∫ θ in (0:ℝ)..(2 * Real.pi), Point.r p θ) / (2 * Real.pi) < 1 ∧
      (∫ θ in (0:ℝ)..(2 * Real.pi), Ring.r rg θ) / (2 * Real.pi) < 1 :=
  ⟨point_mean_lt p hp0 hp1, ring_mean_lt rg hr0 hr1⟩

/-- Witness for C8 (amended) at the concrete offset `(1/2, 0)`. -/
theorem C8_mean_witness :
    (∫ θ in (0:ℝ)..(2 * Real.pi), Point.r ⟨1/2, 0⟩ θ) / (2 * Real.pi) < 1 ∧
      (∫ θ in (0:ℝ)..(2 * Real.pi), Ring.r ⟨1/2, 0⟩ θ) / (2 * Real.pi) < 1 :=
  C8_mean ⟨1/2, 0⟩ ⟨1/2, 0⟩ (by rw [point_half_d]; norm_num)
    (by rw [point_half_d]; norm_num) (by rw [ring_half_d]; norm_num)
    (by rw [ring_half_d]; norm_num)

/-- Counterexample for C8 as stated: at the offset `(1/2, 0)` (so
`d = 1/2 ∈ (0, 1)`) the mean of the profile is NOT at least 1. -/
theorem C8_counterexample :
    ¬ (1 ≤ (∫ θ in (0:ℝ)..(2 * Real.pi), Point.r ⟨1/2, 0⟩ θ) / (2 * Real.pi)) :=
  not_le.2 (point_mean_lt ⟨1/2, 0⟩ (by rw [point_half_d]; norm_num)
    (by rw [point_half_d]; norm_num))

end

end RICH
